import Mathlib

/-!
Verification of the flat-file → star-schema ETL pipeline (`pipeline.py`).

The embedding models the relational state touched by the pipeline (staging
tables, dimensions, facts, the `dim_plan` surrogate-key sequence) and the
four SQL transforms of `TRANSFORM_SQL`, together with the orchestration of
`main` (extraction, a bootstrap transaction, and a second transaction that
runs the staging load followed by the transforms).

SQL `numeric` amounts are modelled as `ℚ`; nullable SQL columns as `Option`;
SQL three-valued boolean logic as `Option Bool`.  The unspecified order that
`ROW_NUMBER() OVER (PARTITION BY plan_name, period ORDER BY amount DESC)`
assigns to rows tying on `amount` is modelled by parameterising the
`dim_plan` transform over an admissible choice function (`Admissible`): the
function must pick, from every non-empty partition, some member of maximal
amount.  Any concrete execution of the SQL corresponds to one admissible
choice; nothing in the SQL pins down which.
-/

namespace Etl

/-- A calendar date (SQL `date`). -/
structure Date where
  year : Nat
  month : Nat
  day : Nat
deriving DecidableEq, Repr

/-- A timestamp; `date` is what the SQL cast `::date` extracts. -/
structure Timestamp where
  date : Date
  secondsOfDay : Nat
deriving DecidableEq, Repr

/-- `DATE_TRUNC('month', d)`: two dates have equal month-truncations iff they
share calendar year and month. -/
def dateTruncMonth (d : Date) : Nat × Nat :=
  (d.year, d.month)

/-- A row of `stg.app_events_raw`.  The extractor serialised the nested
`metadata` object to a scalar; the transform reads it back with `->>`, so it
is modelled as the key/value pairs of the serialised object. -/
structure EventRow where
  event_timestamp : Timestamp
  customer_id : String
  event_type : String
  feature_name : String
  metadata : List (String × String)
deriving DecidableEq, Repr

/-- A row of `stg.customers_raw`. -/
structure CustRow where
  customer_id : String
  company_name : String
  country : String
  address : String
  signup_date : Date
  subscription_id : String
deriving DecidableEq, Repr

/-- A row of `stg.subscriptions_raw`.  `status` and `end_date` are nullable. -/
structure SubRow where
  subscription_id : String
  plan_name : String
  period : String
  amount : ℚ
  currency : String
  status : Option String
  start_date : Date
  end_date : Option Date
deriving DecidableEq, Repr

/-- A row of `analytics.dim_customer` (primary key `customer_id`). -/
structure DimCustomerRow where
  customer_id : String
  company_name : String
  country : String
  address : String
  signup_date : Date
deriving DecidableEq, Repr

/-- A row of `analytics.dim_plan` (unique on `(plan_name, period)`,
surrogate key `plan_key`). -/
structure DimPlanRow where
  plan_key : Nat
  plan_name : String
  period : String
  base_amount : ℚ
  currency : String
deriving DecidableEq, Repr

/-- A row of the pre-existing reference dimension `analytics.dim_date`. -/
structure DimDateRow where
  date_key : Nat
  full_date : Date
deriving DecidableEq, Repr

/-- A row of `analytics.fact_app_usage`. -/
structure FactUsageRow where
  event_timestamp : Timestamp
  date_key : Nat
  customer_id : String
  event_type : String
  feature_name : String
  device_type : Option String
deriving DecidableEq, Repr

/-- A row of `analytics.fact_subscription_events`.  `churn_flag` is an
`Option Bool` because SQL boolean expressions over nullable columns can
yield NULL. -/
structure FactSubRow where
  date_key : Nat
  customer_id : String
  plan_key : Nat
  subscription_id : String
  mrr_amount : ℚ
  churn_flag : Option Bool
  is_new_mrr_flag : Bool
  status : Option String
deriving DecidableEq, Repr

/-- The relational state the pipeline touches.  `plan_key_seq` is the serial
sequence backing `dim_plan.plan_key`. -/
structure DB where
  stg_app_events : List EventRow
  stg_customers : List CustRow
  stg_subscriptions : List SubRow
  dim_customer : List DimCustomerRow
  dim_plan : List DimPlanRow
  plan_key_seq : Nat
  dim_date : List DimDateRow
  fact_app_usage : List FactUsageRow
  fact_subscription_events : List FactSubRow
deriving DecidableEq, Repr

/-- The in-memory batches produced by `extract_data_from_files` (one per
source file, after column normalisation and metadata serialisation). -/
structure Input where
  app_events : List EventRow
  customers : List CustRow
  subscriptions : List SubRow
deriving DecidableEq, Repr

/-- The staging and analytics relation contents of a database state — every
table, but not the sequence counter (a sequence is not a relation). -/
structure Rels where
  stg_app_events : List EventRow
  stg_customers : List CustRow
  stg_subscriptions : List SubRow
  dim_customer : List DimCustomerRow
  dim_plan : List DimPlanRow
  dim_date : List DimDateRow
  fact_app_usage : List FactUsageRow
  fact_subscription_events : List FactSubRow
deriving DecidableEq, Repr

/-- The relation contents of a database state. -/
def relations (db : DB) : Rels :=
  ⟨db.stg_app_events, db.stg_customers, db.stg_subscriptions,
    db.dim_customer, db.dim_plan, db.dim_date,
    db.fact_app_usage, db.fact_subscription_events⟩

/-- Errors a pipeline step can raise.  `transformError` models a SQL error
raised by a transform statement (e.g. `ON CONFLICT DO UPDATE` touching the
same row twice); `injected i` models an externally caused failure (constraint
violation, lost connection) at step `i` of the load-and-transform phase. -/
inductive Err where
  | transformError (rule : String)
  | injected (i : Nat)
deriving DecidableEq, Repr

/-- The phases `main` runs, in order of appearance. -/
inductive Phase where
  | extract
  | bootstrap
  | load
  | transform
deriving DecidableEq, Repr

/-- SQL three-valued `OR`. -/
def sqlOr : Option Bool → Option Bool → Option Bool
  | some true, _ => some true
  | _, some true => some true
  | some false, some false => some false
  | _, _ => none

/-- SQL equality of a nullable string column with a constant. -/
def sqlEqStr (o : Option String) (c : String) : Option Bool :=
  o.map fun s => decide (s = c)

/-! ### Transform 1: `dim_customer` (upsert by `customer_id`) -/

/-- The `dim_customer` values carried by a staging customer row. -/
def custVal (r : CustRow) : DimCustomerRow :=
  ⟨r.customer_id, r.company_name, r.country, r.address, r.signup_date⟩

/-- One `INSERT ... ON CONFLICT (customer_id) DO UPDATE` row action: if the
key exists, overwrite all descriptive attributes; otherwise append. -/
def upsertCustomer (dim : List DimCustomerRow) (r : CustRow) : List DimCustomerRow :=
  if dim.any fun x => decide (x.customer_id = r.customer_id) then
    dim.map fun x => if x.customer_id = r.customer_id then custVal r else x
  else
    dim ++ [custVal r]

/-- The `dim_customer` statement processes staging rows one by one; touching
the same key twice within the statement is a SQL error ("ON CONFLICT DO
UPDATE command cannot affect row a second time"), tracked via `touched`. -/
def dimCustomerAux : List CustRow → List String → List DimCustomerRow →
    Except Err (List DimCustomerRow)
  | [], _, dim => .ok dim
  | r :: rs, touched, dim =>
    if r.customer_id ∈ touched then .error (Err.transformError "dim_customer")
    else dimCustomerAux rs (r.customer_id :: touched) (upsertCustomer dim r)

/-- The `dim_customer` transform of `TRANSFORM_SQL`. -/
def dimCustomerT (stg : List CustRow) (dim : List DimCustomerRow) :
    Except Err (List DimCustomerRow) :=
  dimCustomerAux stg [] dim

/-! ### Transform 2: `dim_plan` (rank within `(plan_name, period)`, keep the
top row by amount, upsert) -/

/-- The partition key of `ROW_NUMBER() OVER (PARTITION BY plan_name, period)`. -/
def planKey (r : SubRow) : String × String :=
  (r.plan_name, r.period)

/-- The `(plan_name, period)` key of a `dim_plan` row. -/
def dimPlanKey (p : DimPlanRow) : String × String :=
  (p.plan_name, p.period)

/-- The distinct partition keys present in staging. -/
def planGroups (stg : List SubRow) : List (String × String) :=
  (stg.map planKey).dedup

/-- The staging rows of one partition. -/
def groupRows (stg : List SubRow) (k : String × String) : List SubRow :=
  stg.filter fun r => decide (planKey r = k)

/-- A choice function is admissible when, on every non-empty partition, it
returns some member of maximal `amount` — exactly what surviving
`WHERE rn = 1` under `ORDER BY amount DESC` guarantees, and all it
guarantees: the SQL does not determine which of several tied rows ranks
first. -/
def Admissible (pick : List SubRow → Option SubRow) : Prop :=
  ∀ g : List SubRow, g ≠ [] →
    ∃ r, pick g = some r ∧ r ∈ g ∧ ∀ r' ∈ g, r'.amount ≤ r.amount

/-- One admissible tie order: the earliest row of maximal amount survives. -/
def pickMaxFirst (g : List SubRow) : Option SubRow :=
  g.argmax fun r => r.amount

/-- Another admissible tie order: the latest row of maximal amount survives. -/
def pickMaxLast (g : List SubRow) : Option SubRow :=
  g.reverse.argmax fun r => r.amount

/-- The `rn = 1` survivors, one per non-empty partition. -/
def planCandidates (pick : List SubRow → Option SubRow) (stg : List SubRow) :
    List SubRow :=
  (planGroups stg).filterMap fun k => pick (groupRows stg k)

/-- The row effect of one `INSERT ... ON CONFLICT (plan_name, period) DO
UPDATE` action: on conflict overwrite `base_amount` and `currency` keeping
the existing `plan_key`; otherwise append with the next serial key. -/
def upsertPlanRows (dim : List DimPlanRow) (seq : Nat) (c : SubRow) :
    List DimPlanRow :=
  if dim.any fun p => decide (dimPlanKey p = planKey c) then
    dim.map fun p =>
      if dimPlanKey p = planKey c then
        { p with base_amount := c.amount, currency := c.currency }
      else p
  else
    dim ++ [⟨seq, c.plan_name, c.period, c.amount, c.currency⟩]

/-- One `dim_plan` upsert action on (rows, serial) state.  The serial is
consumed either way (Postgres evaluates `nextval` before the conflict
check). -/
def upsertPlan (st : List DimPlanRow × Nat) (c : SubRow) : List DimPlanRow × Nat :=
  (upsertPlanRows st.1 st.2 c, st.2 + 1)

/-- The number of `dim_plan` rows carrying a given `(plan_name, period)`
key. -/
def countKey (dim : List DimPlanRow) (k : String × String) : Nat :=
  (dim.filter fun p => decide (dimPlanKey p = k)).length

/-- The `dim_plan` transform of `TRANSFORM_SQL`, parameterised by the tie
choice. -/
def dimPlanT (pick : List SubRow → Option SubRow) (stg : List SubRow)
    (dim : List DimPlanRow) (seq : Nat) : List DimPlanRow × Nat :=
  (planCandidates pick stg).foldl upsertPlan (dim, seq)

/-! ### Transform 3: `fact_app_usage` (delete all, reinsert via date join) -/

/-- The fact row built from a staging event and its matched date row;
`metadata ->> 'device'` is the lookup of the serialised object's key. -/
def mkFactUsage (e : EventRow) (d : DimDateRow) : FactUsageRow :=
  ⟨e.event_timestamp, d.date_key, e.customer_id, e.event_type, e.feature_name,
    e.metadata.lookup "device"⟩

/-- The `fact_app_usage` transform: the prior contents are deleted and the
result of `stg.app_events_raw JOIN dim_date ON event_timestamp::date =
full_date` is inserted. -/
def factUsageRows (events : List EventRow) (dd : List DimDateRow) :
    List FactUsageRow :=
  events.flatMap fun e =>
    (dd.filter fun d => decide (d.full_date = e.event_timestamp.date)).map
      (mkFactUsage e)

/-- Whether a staging event's calendar date resolves in `dim_date`. -/
def usageMatch (dd : List DimDateRow) (e : EventRow) : Bool :=
  dd.any fun d => decide (d.full_date = e.event_timestamp.date)

/-! ### Transform 4: `fact_subscription_events` -/

/-- `CASE WHEN s.period = 'yearly' THEN s.amount / 12.0 ELSE s.amount END`. -/
def mrrOf (s : SubRow) : ℚ :=
  if s.period = "yearly" then s.amount / 12 else s.amount

/-- `(sd.status = 'cancelled' OR sd.end_date IS NOT NULL)` under SQL
three-valued logic. -/
def churnOf (s : SubRow) : Option Bool :=
  sqlOr (sqlEqStr s.status "cancelled") (some s.end_date.isSome)

/-- `DATE_TRUNC('month', sd.start_date) = DATE_TRUNC('month', d.full_date)`. -/
def isNewOf (s : SubRow) (d : DimDateRow) : Bool :=
  decide (dateTruncMonth s.start_date = dateTruncMonth d.full_date)

/-- The fact row built from a joined (subscription, customer, plan, date)
tuple. -/
def mkFactSub (s : SubRow) (c : CustRow) (p : DimPlanRow) (d : DimDateRow) :
    FactSubRow :=
  ⟨d.date_key, c.customer_id, p.plan_key, s.subscription_id, mrrOf s,
    churnOf s, isNewOf s d, s.status⟩

/-- The `fact_subscription_events` transform: delete all, then insert the
join of staging subscriptions with staging customers (on
`subscription_id`), `dim_plan` (on `(plan_name, period)`), and `dim_date`
(on `start_date = full_date`). -/
def factSubRows (subs : List SubRow) (custs : List CustRow)
    (plans : List DimPlanRow) (dd : List DimDateRow) : List FactSubRow :=
  subs.flatMap fun s =>
    custs.flatMap fun c =>
      plans.flatMap fun p =>
        dd.flatMap fun d =>
          if s.subscription_id = c.subscription_id ∧
              s.plan_name = p.plan_name ∧ s.period = p.period ∧
              s.start_date = d.full_date then
            [mkFactSub s c p d]
          else []

/-! ### Orchestration (`main`) -/

/-- `create_schema` runs create-if-absent DDL only: it changes no relation
contents, so on the relational state it is the identity. -/
def bootstrapT (db : DB) : DB :=
  db

/-- Failure injection point `i` of the load-and-transform phase. -/
def chk (fault : Nat → Bool) (i : Nat) : Except Err Unit :=
  if fault i then .error (Err.injected i) else .ok ()

/-- The body of the second transaction of `main`: the staging load
(`load_data_to_staging_with_sql`, one truncate-and-insert per source) followed
by `transform_data_in_analytics` (the four transforms in their fixed order).
`fault` injects external failures before each of the seven statements. -/
def loadTransformBody (fault : Nat → Bool) (pick : List SubRow → Option SubRow)
    (inp : Input) (db : DB) : Except Err DB := do
  _ ← chk fault 0
  let db := { db with stg_app_events := inp.app_events }
  _ ← chk fault 1
  let db := { db with stg_customers := inp.customers }
  _ ← chk fault 2
  let db := { db with stg_subscriptions := inp.subscriptions }
  _ ← chk fault 3
  let dimc ← dimCustomerT db.stg_customers db.dim_customer
  let db := { db with dim_customer := dimc }
  _ ← chk fault 4
  let ps := dimPlanT pick db.stg_subscriptions db.dim_plan db.plan_key_seq
  let db := { db with dim_plan := ps.1, plan_key_seq := ps.2 }
  _ ← chk fault 5
  let db := { db with fact_app_usage := factUsageRows db.stg_app_events db.dim_date }
  _ ← chk fault 6
  let db := { db with
    fact_subscription_events :=
      factSubRows db.stg_subscriptions db.stg_customers db.dim_plan db.dim_date }
  .ok db

/-- `with conn.begin()`: commit the body's state on success, roll back to the
entry state on an exception. -/
def runTxn (body : DB → Except Err DB) (db : DB) : DB :=
  match body db with
  | .ok db' => db'
  | .error _ => db

/-- One invocation of `main`: extraction (pure, produces `inp`), the
bootstrap transaction, then the load-and-transform transaction. -/
def pipelineRun (fault : Nat → Bool) (pick : List SubRow → Option SubRow)
    (inp : Input) (db : DB) : DB :=
  runTxn (loadTransformBody fault pick inp) (runTxn (fun d => .ok (bootstrapT d)) db)

/-- A fault-free invocation of `main`. -/
def run (pick : List SubRow → Option SubRow) (inp : Input) (db : DB) : DB :=
  pipelineRun (fun _ => false) pick inp db

/-- The order in which `main` executes its phases: `extract_data_from_files()`
(which reads every source file) runs first, before the connection is even
opened; the `create_schema` transaction follows; the second transaction then
runs the staging load and, after it, the transforms. -/
def mainPhases : List Phase :=
  [Phase.extract, Phase.bootstrap, Phase.load, Phase.transform]

/-! ### Concrete data used by witnesses and counterexamples -/

/-- January 15, 2024. -/
def dJan15 : Date := ⟨2024, 1, 15⟩

/-- January 16, 2024. -/
def dJan16 : Date := ⟨2024, 1, 16⟩

/-- The `dim_date` reference row for January 15, 2024. -/
def ddJan15 : DimDateRow := ⟨20240115, dJan15⟩

/-- A monthly Pro subscription, amount 10, currency USD. -/
def subTieUSD : SubRow := ⟨"s1", "Pro", "monthly", 10, "USD", some "active", dJan15, none⟩

/-- A monthly Pro subscription tying `subTieUSD` on amount but in EUR. -/
def subTieEUR : SubRow := ⟨"s2", "Pro", "monthly", 10, "EUR", some "active", dJan15, none⟩

/-- A monthly Pro subscription with the larger amount 20. -/
def subPro20 : SubRow := ⟨"s3", "Pro", "monthly", 20, "USD", some "active", dJan15, none⟩

/-- A cancelled subscription with no end date. -/
def subCancelled : SubRow := ⟨"s6", "Pro", "monthly", 10, "USD", some "cancelled", dJan15, none⟩

/-- A yearly subscription with amount 120. -/
def subYearly : SubRow := ⟨"s4", "Enterprise", "yearly", 120, "USD", some "active", dJan15, none⟩

/-- An active monthly subscription with amount 10 and no end date. -/
def subMonthly10 : SubRow := ⟨"s5", "Basic", "monthly", 10, "USD", some "active", dJan15, none⟩

/-- A staging customer linked to subscription `s5`. -/
def custS5 : CustRow := ⟨"c5", "Initech", "DE", "Hauptstr 3", dJan15, "s5"⟩

/-- A staging customer linked to subscription `s4`. -/
def custS4 : CustRow := ⟨"c4", "Globex", "FR", "Rue 2", dJan15, "s4"⟩

/-- A staging customer linked to subscription `s6`. -/
def custS6 : CustRow := ⟨"c6", "Acme", "ES", "Calle 1", dJan15, "s6"⟩

/-- A `dim_plan` row for (Basic, monthly). -/
def planBasic : DimPlanRow := ⟨3, "Basic", "monthly", 10, "USD"⟩

/-- A `dim_plan` row for (Enterprise, yearly). -/
def planEnt : DimPlanRow := ⟨2, "Enterprise", "yearly", 120, "USD"⟩

/-- A `dim_plan` row for (Pro, monthly). -/
def planPro : DimPlanRow := ⟨1, "Pro", "monthly", 10, "USD"⟩

/-- A staging app event whose date resolves in `[ddJan15]`. -/
def evMatch : EventRow := ⟨⟨dJan15, 3600⟩, "c1", "click", "dashboard", [("device", "ios")]⟩

/-- A staging app event whose date resolves in no `dim_date` row of `[ddJan15]`. -/
def evNoMatch : EventRow := ⟨⟨dJan16, 60⟩, "c2", "click", "report", []⟩

/-- A database whose relations are all empty; the plan-key serial starts at 1. -/
def dbEmpty : DB := ⟨[], [], [], [], [], 1, [], [], []⟩

/-- An input batch whose subscriptions tie on `(plan_name, period, amount)`
but differ in currency. -/
def inpTie : Input := ⟨[], [], [subTieUSD, subTieEUR]⟩

/-- The staging contents of `inpTie`'s subscription source. -/
def stgTie : List SubRow := [subTieUSD, subTieEUR]

/-- A fault that fails the fifth statement of the load-and-transform phase
(the `dim_plan` transform), after the loads and `dim_customer` ran. -/
def faultAt4 : Nat → Bool := fun i => i == 4

/-! ### Helper lemmas -/

/-- `pickMaxFirst` is one admissible resolution of the `ROW_NUMBER` tie order. -/
theorem pickMaxFirst_admissible : Admissible pickMaxFirst := by
  intro g hg
  cases h : g.argmax (fun r => r.amount) with
  | none => exact absurd (List.argmax_eq_none.mp h) hg
  | some r =>
    have hr : r ∈ g.argmax fun r => r.amount := h ▸ rfl
    exact ⟨r, h, List.argmax_mem hr, fun r' hr' => List.le_of_mem_argmax hr' hr⟩

/-- `pickMaxLast` is another admissible resolution of the `ROW_NUMBER` tie
order. -/
theorem pickMaxLast_admissible : Admissible pickMaxLast := by
  intro g hg
  have hgr : g.reverse ≠ [] := by
    simpa using hg
  cases h : g.reverse.argmax (fun r => r.amount) with
  | none => exact absurd (List.argmax_eq_none.mp h) hgr
  | some r =>
    have hr : r ∈ g.reverse.argmax fun r => r.amount := h ▸ rfl
    refine ⟨r, h, List.mem_reverse.mp (List.argmax_mem hr), fun r' hr' => ?_⟩
    exact List.le_of_mem_argmax (List.mem_reverse.mpr hr') hr

/-- Membership in a conditional singleton. -/
theorem mem_ite_singleton {α : Type} {c : Prop} [Decidable c] {a b : α} :
    (a ∈ if c then [b] else ([] : List α)) ↔ c ∧ a = b := by
  split <;> simp_all

/-- The rows of `fact_subscription_events` are exactly the images of the
join tuples satisfying the three join conditions. -/
theorem mem_factSubRows {subs : List SubRow} {custs : List CustRow}
    {plans : List DimPlanRow} {dd : List DimDateRow} {f : FactSubRow} :
    f ∈ factSubRows subs custs plans dd ↔
      ∃ s ∈ subs, ∃ c ∈ custs, ∃ p ∈ plans, ∃ d ∈ dd,
        (s.subscription_id = c.subscription_id ∧ s.plan_name = p.plan_name ∧
          s.period = p.period ∧ s.start_date = d.full_date) ∧
        f = mkFactSub s c p d := by
  simp only [factSubRows, List.mem_flatMap, mem_ite_singleton]

/-- `churn_flag` under SQL three-valued logic: it is TRUE exactly when the
status is the string `cancelled` or the end date is present. -/
theorem churnOf_eq_some_true (s : SubRow) :
    churnOf s = some true ↔
      (s.status = some "cancelled" ∨ s.end_date.isSome = true) := by
  cases hst : s.status with
  | none => cases hed : s.end_date <;> simp [churnOf, sqlOr, sqlEqStr, hst, hed]
  | some v =>
    by_cases hv : v = "cancelled" <;> cases hed : s.end_date <;>
      simp [churnOf, sqlOr, sqlEqStr, hst, hed, hv]

/-! ### C6: phase order of `main` -/

/-- C6 counterexample: contrary to the claimed order (bootstrap before
extraction, with no source file read before the bootstrap transaction),
`main` calls `extract_data_from_files()` — which reads every source file —
strictly before the bootstrap transaction. -/
theorem c6_extract_before_bootstrap :
    mainPhases.indexOf Phase.extract < mainPhases.indexOf Phase.bootstrap ∧
    ¬ mainPhases.indexOf Phase.bootstrap < mainPhases.indexOf Phase.extract := by
  decide

/-- C6 (amended): in every run the phases execute in the order: file
extraction first, then schema bootstrap (in its own transaction), then
staging load, then transform; the bootstrap transaction runs only after all
source files have been read. -/
theorem c6_phase_order :
    mainPhases.indexOf Phase.extract < mainPhases.indexOf Phase.bootstrap ∧
    mainPhases.indexOf Phase.bootstrap < mainPhases.indexOf Phase.load ∧
    mainPhases.indexOf Phase.load < mainPhases.indexOf Phase.transform := by
  decide

/-! ### C10: atomicity of the load-and-transform transaction -/

/-- C10: the staging load and the transforms run inside one shared
transaction; if any of their statements fails, every staging and analytics
relation is left with its pre-run contents. -/
theorem c10_load_transform_atomic (fault : Nat → Bool)
    (pick : List SubRow → Option SubRow) (inp : Input) (db : DB) (e : Err)
    (h : loadTransformBody fault pick inp (bootstrapT db) = .error e) :
    relations (pipelineRun fault pick inp db) = relations db := by
  have hb : runTxn (fun d => .ok (bootstrapT d)) db = db := rfl
  have h' : loadTransformBody fault pick inp db = .error e := h
  show relations
      (runTxn (loadTransformBody fault pick inp)
        (runTxn (fun d => .ok (bootstrapT d)) db)) = relations db
  rw [hb, runTxn, h']

/-- C10 witness: with a failure injected into the `dim_plan` statement —
after the staging loads and `dim_customer` already executed — the run leaves
the empty database unchanged. -/
theorem c10_witness :
    loadTransformBody faultAt4 pickMaxFirst inpTie (bootstrapT dbEmpty) =
      .error (Err.injected 4) ∧
    relations (pipelineRun faultAt4 pickMaxFirst inpTie dbEmpty) = relations dbEmpty :=
  ⟨rfl, c10_load_transform_atomic faultAt4 pickMaxFirst inpTie dbEmpty
    (Err.injected 4) rfl⟩

/-! ### C2, C3, C7, C8: the derived fields of `fact_subscription_events` -/

/-- C2: every row inserted into `fact_subscription_events` comes from a
staging subscription matched to a date-dimension entry on its start date,
and its `is_new_mrr_flag` is true if and only if the subscription's start
date falls in the same calendar month as that entry's date. -/
theorem c2_is_new_iff_same_month (subs : List SubRow) (custs : List CustRow)
    (plans : List DimPlanRow) (dd : List DimDateRow) (f : FactSubRow)
    (hf : f ∈ factSubRows subs custs plans dd) :
    ∃ s ∈ subs, ∃ d ∈ dd, s.start_date = d.full_date ∧
      f.subscription_id = s.subscription_id ∧
      (f.is_new_mrr_flag = true ↔
        dateTruncMonth s.start_date = dateTruncMonth d.full_date) := by
  obtain ⟨s, hs, c, hc, p, hp, d, hd, ⟨_, _, _, hjd⟩, hfe⟩ := mem_factSubRows.mp hf
  subst hfe
  exact ⟨s, hs, d, hd, hjd, rfl, by simp [mkFactSub, isNewOf]⟩

/-- C3: every row inserted into `fact_subscription_events` has
`is_new_mrr_flag = true`: the date join equates the start date with the
date-dimension date, which forces the same-month test to succeed. -/
theorem c3_is_new_constant_true (subs : List SubRow) (custs : List CustRow)
    (plans : List DimPlanRow) (dd : List DimDateRow) (f : FactSubRow)
    (hf : f ∈ factSubRows subs custs plans dd) :
    f.is_new_mrr_flag = true := by
  obtain ⟨s, _, c, _, p, _, d, _, ⟨_, _, _, hjd⟩, hfe⟩ := mem_factSubRows.mp hf
  subst hfe
  simp [mkFactSub, isNewOf, hjd]

/-- C7: every row inserted into `fact_subscription_events` carries its
source subscription's id and status, and its `churn_flag` is true if and
only if that subscription's status is `cancelled` or its end date is
present. -/
theorem c7_churn_iff (subs : List SubRow) (custs : List CustRow)
    (plans : List DimPlanRow) (dd : List DimDateRow) (f : FactSubRow)
    (hf : f ∈ factSubRows subs custs plans dd) :
    ∃ s ∈ subs, f.subscription_id = s.subscription_id ∧ f.status = s.status ∧
      (f.churn_flag = some true ↔
        (s.status = some "cancelled" ∨ s.end_date.isSome = true)) := by
  obtain ⟨s, hs, c, _, p, _, d, _, _, hfe⟩ := mem_factSubRows.mp hf
  subst hfe
  exact ⟨s, hs, rfl, rfl, churnOf_eq_some_true s⟩

/-- C8: every row inserted into `fact_subscription_events` has `mrr_amount`
equal to its source subscription's raw amount divided by 12 when the billing
period is `yearly`, and to the raw amount unchanged otherwise. -/
theorem c8_mrr_normalization (subs : List SubRow) (custs : List CustRow)
    (plans : List DimPlanRow) (dd : List DimDateRow) (f : FactSubRow)
    (hf : f ∈ factSubRows subs custs plans dd) :
    ∃ s ∈ subs, f.subscription_id = s.subscription_id ∧
      f.mrr_amount = (if s.period = "yearly" then s.amount / 12 else s.amount) := by
  obtain ⟨s, hs, c, _, p, _, d, _, _, hfe⟩ := mem_factSubRows.mp hf
  subst hfe
  exact ⟨s, hs, rfl, rfl⟩

/-- C2 witness: a concrete inserted row whose start date matches its date
entry, with the flag true. -/
theorem c2_witness :
    ∃ s ∈ [subMonthly10], ∃ d ∈ [ddJan15], s.start_date = d.full_date ∧
      (mkFactSub subMonthly10 custS5 planBasic ddJan15).subscription_id =
        s.subscription_id ∧
      ((mkFactSub subMonthly10 custS5 planBasic ddJan15).is_new_mrr_flag = true ↔
        dateTruncMonth s.start_date = dateTruncMonth d.full_date) :=
  c2_is_new_iff_same_month [subMonthly10] [custS5] [planBasic] [ddJan15]
    (mkFactSub subMonthly10 custS5 planBasic ddJan15) (by decide)

/-- C3 witness: the concrete inserted row has `is_new_mrr_flag = true`. -/
theorem c3_witness :
    (mkFactSub subMonthly10 custS5 planBasic ddJan15).is_new_mrr_flag = true :=
  c3_is_new_constant_true [subMonthly10] [custS5] [planBasic] [ddJan15]
    (mkFactSub subMonthly10 custS5 planBasic ddJan15) (by decide)

/-- C7 witness: a cancelled subscription with no end date yields
`churn_flag` TRUE; an active subscription with no end date yields
`churn_flag` FALSE. -/
theorem c7_witness :
    (∃ s ∈ [subCancelled],
      (mkFactSub subCancelled custS6 planPro ddJan15).subscription_id =
        s.subscription_id ∧
      (mkFactSub subCancelled custS6 planPro ddJan15).status = s.status ∧
      ((mkFactSub subCancelled custS6 planPro ddJan15).churn_flag = some true ↔
        (s.status = some "cancelled" ∨ s.end_date.isSome = true))) ∧
    (mkFactSub subCancelled custS6 planPro ddJan15).churn_flag = some true ∧
    (mkFactSub subMonthly10 custS5 planBasic ddJan15).churn_flag = some false :=
  ⟨c7_churn_iff [subCancelled] [custS6] [planPro] [ddJan15]
      (mkFactSub subCancelled custS6 planPro ddJan15) (by decide),
    by decide, by decide⟩

/-- C8 witness: a monthly subscription of amount 10 yields `mrr_amount = 10`
unchanged, and a yearly subscription of amount 120 yields `mrr_amount = 10`. -/
theorem c8_witness :
    (∃ s ∈ [subMonthly10],
      (mkFactSub subMonthly10 custS5 planBasic ddJan15).subscription_id =
        s.subscription_id ∧
      (mkFactSub subMonthly10 custS5 planBasic ddJan15).mrr_amount =
        (if s.period = "yearly" then s.amount / 12 else s.amount)) ∧
    (mkFactSub subMonthly10 custS5 planBasic ddJan15).mrr_amount = 10 ∧
    (mkFactSub subYearly custS4 planEnt ddJan15).mrr_amount = 10 :=
  ⟨c8_mrr_normalization [subMonthly10] [custS5] [planBasic] [ddJan15]
      (mkFactSub subMonthly10 custS5 planBasic ddJan15) (by decide),
    by decide,
    by norm_num [mkFactSub, mrrOf, subYearly]⟩

/-! ### C9: `fact_app_usage` rebuild counts -/

/-- In a date dimension without duplicate dates, filtering on one date
yields a single row when the date resolves and none otherwise. -/
theorem dimDate_filter_length (dd : List DimDateRow) (x : Date)
    (hnd : (dd.map fun d => d.full_date).Nodup) :
    (dd.filter fun d => decide (d.full_date = x)).length =
      if dd.any fun d => decide (d.full_date = x) then 1 else 0 := by
  induction dd with
  | nil => rfl
  | cons d dd ih =>
    simp only [List.map_cons, List.nodup_cons] at hnd
    by_cases hd : d.full_date = x
    · have hfil : dd.filter (fun d => decide (d.full_date = x)) = [] := by
        refine List.filter_eq_nil_iff.mpr fun e he => ?_
        simp only [decide_eq_true_eq]
        intro hex
        exact hnd.1 (List.mem_map.mpr ⟨e, he, by rw [hex, hd]⟩)
      simp [List.filter_cons, List.any_cons, hd, hfil]
    · simp [List.filter_cons, List.any_cons, hd, ih hnd.2]

/-- C9: when `dim_date` holds no duplicate dates, `fact_app_usage` after a
run has exactly one row per staging event whose calendar date resolves in
`dim_date` and none for any other staging event, and every fact row is the
image of such a resolved event. -/
theorem c9_usage_rebuild (events : List EventRow) (dd : List DimDateRow)
    (hnd : (dd.map fun d => d.full_date).Nodup) :
    (factUsageRows events dd).length = (events.filter (usageMatch dd)).length ∧
    ∀ f ∈ factUsageRows events dd, ∃ e ∈ events, ∃ d ∈ dd,
      d.full_date = e.event_timestamp.date ∧ f = mkFactUsage e d := by
  constructor
  · induction events with
    | nil => rfl
    | cons e es ih =>
      have hlen := dimDate_filter_length dd e.event_timestamp.date hnd
      simp only [factUsageRows, List.flatMap_cons, List.length_append,
        List.length_map, List.filter_cons] at ih ⊢
      rw [hlen, ih]
      by_cases hm : usageMatch dd e
      · rw [if_pos hm, if_pos (by simpa [usageMatch] using hm)]
        simp [Nat.add_comm]
      · rw [if_neg hm, if_neg (by simpa [usageMatch] using hm)]
        simp
  · intro f hf
    simp only [factUsageRows, List.mem_flatMap, List.mem_map,
      List.mem_filter, decide_eq_true_eq] at hf
    obtain ⟨e, he, d, ⟨hd, hdate⟩, hfe⟩ := hf
    exact ⟨e, he, d, hd, hdate, hfe.symm⟩

/-- C9 witness: of two staging events, only the one whose date resolves in
the one-row date dimension produces a fact row. -/
theorem c9_witness :
    ((factUsageRows [evMatch, evNoMatch] [ddJan15]).length =
      ([evMatch, evNoMatch].filter (usageMatch [ddJan15])).length ∧
    ∀ f ∈ factUsageRows [evMatch, evNoMatch] [ddJan15],
      ∃ e ∈ [evMatch, evNoMatch], ∃ d ∈ [ddJan15],
        d.full_date = e.event_timestamp.date ∧ f = mkFactUsage e d) ∧
    (factUsageRows [evMatch, evNoMatch] [ddJan15]).length = 1 :=
  ⟨c9_usage_rebuild [evMatch, evNoMatch] [ddJan15] (by decide), by decide⟩

/-! ### C5: the `dim_plan` tie-break is not deterministic -/

/-- C5: the `ROW_NUMBER` ordering constrains only the amount, and two tie
orders the SQL permits — earliest-wins and latest-wins, both admissible —
produce different `dim_plan` contents from the same staging contents when
two rows of one `(plan_name, period)` group tie on the maximal amount. -/
theorem c5_tie_not_deterministic :
    Admissible pickMaxFirst ∧ Admissible pickMaxLast ∧
    (dimPlanT pickMaxFirst stgTie [] 1).1 ≠ (dimPlanT pickMaxLast stgTie [] 1).1 :=
  ⟨pickMaxFirst_admissible, pickMaxLast_admissible, by decide⟩

/-! ### C1: idempotence of the full pipeline -/

/-- C1 counterexample: on input files whose subscriptions tie on
`(plan_name, period, amount)` but differ in currency, a first run and a
second run on identical input — each under a tie order the SQL permits —
leave different `dim_plan` contents, so the second run's relation contents
do not match the first run's. -/
theorem c1_counterexample :
    relations (run pickMaxLast inpTie (run pickMaxFirst inpTie dbEmpty)) ≠
      relations (run pickMaxFirst inpTie dbEmpty) := by
  decide

/-! ### Upsert machinery for `dim_plan` -/

/-- A map whose function fixes every element of a list is the identity. -/
theorem map_eq_self_of {α : Type} {f : α → α} {l : List α}
    (h : ∀ a ∈ l, f a = a) : l.map f = l := by
  induction l with
  | nil => rfl
  | cons a l ih =>
    rw [List.map_cons, h a (List.mem_cons_self a l),
      ih fun b hb => h b (List.mem_cons_of_mem a hb)]

/-- A non-empty group exists for every key listed in `planGroups`. -/
theorem groupRows_ne_nil {stg : List SubRow} {k : String × String}
    (hk : k ∈ planGroups stg) : groupRows stg k ≠ [] := by
  unfold planGroups at hk
  rw [List.mem_dedup] at hk
  obtain ⟨r, hr, hkr⟩ := List.mem_map.mp hk
  intro hnil
  have hmem : r ∈ groupRows stg k := List.mem_filter.mpr ⟨hr, by simp [hkr]⟩
  rw [hnil] at hmem
  exact absurd hmem (List.not_mem_nil r)

/-- An admissible choice returns, for every key of `planGroups`, a member of
that key's group of maximal amount, whose partition key is that key. -/
theorem pick_groupRows_spec {pick : List SubRow → Option SubRow}
    (hA : Admissible pick) {stg : List SubRow} {k : String × String}
    (hk : k ∈ planGroups stg) :
    ∃ r, pick (groupRows stg k) = some r ∧ planKey r = k ∧
      r ∈ groupRows stg k ∧ ∀ r' ∈ groupRows stg k, r'.amount ≤ r.amount := by
  obtain ⟨r, hp, hr, hmax⟩ := hA _ (groupRows_ne_nil hk)
  have hkey : planKey r = k := by
    have h := List.mem_filter.mp hr
    simpa using h.2
  exact ⟨r, hp, hkey, hr, hmax⟩

/-- A `filterMap` that hits on every element and whose results project back
to the inputs reproduces the input list. -/
theorem filterMap_map_of {K A : Type} (g : K → Option A) (h : A → K) :
    ∀ ks : List K, (∀ k ∈ ks, ∃ a, g k = some a ∧ h a = k) →
      (ks.filterMap g).map h = ks
  | [], _ => rfl
  | k :: ks, H => by
    obtain ⟨a, hg, hh⟩ := H k (List.mem_cons_self k ks)
    rw [List.filterMap_cons, hg, List.map_cons, hh,
      filterMap_map_of g h ks fun k hk => H k (List.mem_cons_of_mem _ hk)]

/-- Under an admissible choice the `rn = 1` survivors carry exactly the
distinct partition keys of staging, in order. -/
theorem planCandidates_keys {pick : List SubRow → Option SubRow}
    (hA : Admissible pick) (stg : List SubRow) :
    (planCandidates pick stg).map planKey = planGroups stg := by
  unfold planCandidates
  refine filterMap_map_of _ _ _ fun k hk => ?_
  obtain ⟨r, hp, hkey, _, _⟩ := pick_groupRows_spec hA hk
  exact ⟨r, hp, hkey⟩

/-- Every `rn = 1` survivor belongs to its own partition's group and has
maximal amount there. -/
theorem planCandidates_mem_spec {pick : List SubRow → Option SubRow}
    (hA : Admissible pick) {stg : List SubRow} {c : SubRow}
    (hc : c ∈ planCandidates pick stg) :
    c ∈ groupRows stg (planKey c) ∧
      ∀ r ∈ groupRows stg (planKey c), r.amount ≤ c.amount := by
  unfold planCandidates at hc
  obtain ⟨k, hk, hpk⟩ := List.mem_filterMap.mp hc
  obtain ⟨r, hp, hkey, hrmem, hmax⟩ := pick_groupRows_spec hA hk
  have hrc : r = c := by
    have := hp.symm.trans hpk
    exact Option.some.inj this
  subst hrc
  rw [hkey]
  exact ⟨hrmem, hmax⟩

/-- After upserting `c`, some row carries `c`'s key, and every row carrying
`c`'s key carries `c`'s amount and currency. -/
theorem upsertPlanRows_establish (dim : List DimPlanRow) (seq : Nat) (c : SubRow) :
    (∃ p ∈ upsertPlanRows dim seq c, dimPlanKey p = planKey c) ∧
    ∀ p ∈ upsertPlanRows dim seq c, dimPlanKey p = planKey c →
      p.base_amount = c.amount ∧ p.currency = c.currency := by
  unfold upsertPlanRows
  by_cases h : (dim.any fun p => decide (dimPlanKey p = planKey c)) = true
  · rw [if_pos h]
    obtain ⟨p0, hp0, hk0⟩ := List.any_eq_true.mp h
    rw [decide_eq_true_eq] at hk0
    constructor
    · refine ⟨{ p0 with base_amount := c.amount, currency := c.currency },
        List.mem_map.mpr ⟨p0, hp0, by rw [if_pos hk0]⟩, hk0⟩
    · intro p hp hpk
      obtain ⟨p1, hp1, hfe⟩ := List.mem_map.mp hp
      by_cases h1 : dimPlanKey p1 = planKey c
      · rw [if_pos h1] at hfe
        rw [← hfe]
        exact ⟨rfl, rfl⟩
      · rw [if_neg h1] at hfe
        rw [← hfe] at hpk
        exact absurd hpk h1
  · rw [if_neg h]
    have hnone : ∀ p ∈ dim, ¬ dimPlanKey p = planKey c := by
      intro p hp hk
      exact h (List.any_eq_true.mpr ⟨p, hp, by simpa using hk⟩)
    constructor
    · exact ⟨⟨seq, c.plan_name, c.period, c.amount, c.currency⟩,
        List.mem_append_right _ (List.mem_singleton.mpr rfl), rfl⟩
    · intro p hp hpk
      rcases List.mem_append.mp hp with hm | hm
      · exact absurd hpk (hnone p hm)
      · rw [List.mem_singleton.mp hm]
        exact ⟨rfl, rfl⟩

/-- Upserting a row of a different key preserves both the existence of a key
and the amount/currency of its rows. -/
theorem upsertPlanRows_preserve {dim : List DimPlanRow} {seq : Nat} {c : SubRow}
    {k : String × String} (hck : planKey c ≠ k) {amt : ℚ} {cur : String}
    (hex : ∃ p ∈ dim, dimPlanKey p = k)
    (hval : ∀ p ∈ dim, dimPlanKey p = k → p.base_amount = amt ∧ p.currency = cur) :
    (∃ p ∈ upsertPlanRows dim seq c, dimPlanKey p = k) ∧
    ∀ p ∈ upsertPlanRows dim seq c, dimPlanKey p = k →
      p.base_amount = amt ∧ p.currency = cur := by
  unfold upsertPlanRows
  by_cases h : (dim.any fun p => decide (dimPlanKey p = planKey c)) = true
  · rw [if_pos h]
    constructor
    · obtain ⟨p0, hp0, hk0⟩ := hex
      refine ⟨p0, List.mem_map.mpr ⟨p0, hp0, if_neg fun he => hck (by rw [← he, hk0])⟩, hk0⟩
    · intro p hp hpk
      obtain ⟨p1, hp1, hfe⟩ := List.mem_map.mp hp
      by_cases h1 : dimPlanKey p1 = planKey c
      · rw [if_pos h1] at hfe
        rw [← hfe] at hpk
        exact absurd (h1.symm.trans hpk) hck
      · rw [if_neg h1] at hfe
        rw [← hfe] at hpk ⊢
        exact hval p1 hp1 hpk
  · rw [if_neg h]
    constructor
    · obtain ⟨p0, hp0, hk0⟩ := hex
      exact ⟨p0, List.mem_append_left _ hp0, hk0⟩
    · intro p hp hpk
      rcases List.mem_append.mp hp with hm | hm
      · exact hval p hm hpk
      · rw [List.mem_singleton.mp hm] at hpk
        exact absurd hpk hck

/-- Folding upserts whose keys all differ from `k` preserves existence and
values at `k`. -/
theorem planFold_preserve {k : String × String} {amt : ℚ} {cur : String} :
    ∀ (cs : List SubRow) (st : List DimPlanRow × Nat),
      (∀ c ∈ cs, planKey c ≠ k) →
      (∃ p ∈ st.1, dimPlanKey p = k) →
      (∀ p ∈ st.1, dimPlanKey p = k → p.base_amount = amt ∧ p.currency = cur) →
      (∃ p ∈ (cs.foldl upsertPlan st).1, dimPlanKey p = k) ∧
      ∀ p ∈ (cs.foldl upsertPlan st).1, dimPlanKey p = k →
        p.base_amount = amt ∧ p.currency = cur
  | [], _, _, hex, hval => ⟨hex, hval⟩
  | c :: cs, st, hk, hex, hval => by
    rw [List.foldl_cons]
    have hstep := @upsertPlanRows_preserve st.1 st.2 c k
      (hk c (List.mem_cons_self c cs)) amt cur hex hval
    exact planFold_preserve cs (upsertPlan st c)
      (fun c' hc' => hk c' (List.mem_cons_of_mem c hc')) hstep.1 hstep.2

/-- After folding a key-distinct candidate list, each candidate's key is
present and all rows of that key carry its amount and currency. -/
theorem planFold_establish :
    ∀ (cs : List SubRow), ((cs.map planKey).Nodup) → ∀ {c : SubRow}, c ∈ cs →
      ∀ st : List DimPlanRow × Nat,
      (∃ p ∈ (cs.foldl upsertPlan st).1, dimPlanKey p = planKey c) ∧
      ∀ p ∈ (cs.foldl upsertPlan st).1, dimPlanKey p = planKey c →
        p.base_amount = c.amount ∧ p.currency = c.currency
  | [], _, _, hc, _ => absurd hc (List.not_mem_nil _)
  | c0 :: cs, hnd, c, hc, st => by
    rw [List.map_cons, List.nodup_cons] at hnd
    rw [List.foldl_cons]
    rcases List.mem_cons.mp hc with hc0 | hmem
    · subst hc0
      have hstep := upsertPlanRows_establish st.1 st.2 c
      have hknot : ∀ c' ∈ cs, planKey c' ≠ planKey c := by
        intro c' hc' he
        exact hnd.1 (List.mem_map.mpr ⟨c', hc', he⟩)
      exact planFold_preserve cs (upsertPlan st c) hknot hstep.1 hstep.2
    · exact planFold_establish cs hnd.2 hmem (upsertPlan st c0)

/-- Folding candidates whose keys are already present with their own amounts
and currencies changes no `dim_plan` row. -/
theorem planFold_fixed :
    ∀ (cs : List SubRow) (st : List DimPlanRow × Nat),
      (∀ c ∈ cs, (∃ p ∈ st.1, dimPlanKey p = planKey c) ∧
        ∀ p ∈ st.1, dimPlanKey p = planKey c →
          p.base_amount = c.amount ∧ p.currency = c.currency) →
      (cs.foldl upsertPlan st).1 = st.1
  | [], _, _ => rfl
  | c :: cs, st, h => by
    have h0 := h c (List.mem_cons_self c cs)
    have hrows : upsertPlanRows st.1 st.2 c = st.1 := by
      unfold upsertPlanRows
      obtain ⟨p0, hp0, hk0⟩ := h0.1
      rw [if_pos (List.any_eq_true.mpr ⟨p0, hp0, by simpa using hk0⟩)]
      refine map_eq_self_of fun p hp => ?_
      by_cases h1 : dimPlanKey p = planKey c
      · rw [if_pos h1]
        obtain ⟨hb, hcur⟩ := h0.2 p hp h1
        rw [← hb, ← hcur]
      · rw [if_neg h1]
    rw [List.foldl_cons]
    have hstep : upsertPlan st c = (st.1, st.2 + 1) := by
      unfold upsertPlan
      rw [hrows]
    rw [hstep]
    exact planFold_fixed cs (st.1, st.2 + 1) fun c' hc' =>
      h c' (List.mem_cons_of_mem c hc')

/-- Running the `dim_plan` transform a second time over the same staging
contents leaves every `dim_plan` row unchanged. -/
theorem dimPlanT_fst_idem {pick : List SubRow → Option SubRow}
    (hA : Admissible pick) (stg : List SubRow) (dim : List DimPlanRow) (seq : Nat) :
    (dimPlanT pick stg (dimPlanT pick stg dim seq).1 (dimPlanT pick stg dim seq).2).1 =
      (dimPlanT pick stg dim seq).1 := by
  have hnd : ((planCandidates pick stg).map planKey).Nodup := by
    rw [planCandidates_keys hA]
    exact List.nodup_dedup _
  show ((planCandidates pick stg).foldl upsertPlan
      ((planCandidates pick stg).foldl upsertPlan (dim, seq))).1 = _
  exact planFold_fixed _ _ fun c hc => planFold_establish _ hnd hc (dim, seq)

/-- Mapping a key-preserving function over `dim_plan` preserves key counts. -/
theorem countKey_map {dim : List DimPlanRow} {f : DimPlanRow → DimPlanRow}
    (hf : ∀ p, dimPlanKey (f p) = dimPlanKey p) (k : String × String) :
    countKey (dim.map f) k = countKey dim k := by
  unfold countKey
  induction dim with
  | nil => rfl
  | cons p dim ih =>
    rw [List.map_cons, List.filter_cons, List.filter_cons, hf p]
    by_cases h : dimPlanKey p = k <;> simp [h, ih]

/-- Upserting a row of a different key preserves the count at `k`. -/
theorem upsertPlanRows_countKey_other {dim : List DimPlanRow} {seq : Nat}
    {c : SubRow} {k : String × String} (hck : planKey c ≠ k) :
    countKey (upsertPlanRows dim seq c) k = countKey dim k := by
  unfold upsertPlanRows
  by_cases h : (dim.any fun p => decide (dimPlanKey p = planKey c)) = true
  · rw [if_pos h]
    refine countKey_map (fun p => ?_) k
    by_cases h1 : dimPlanKey p = planKey c
    · rw [if_pos h1]
      rfl
    · rw [if_neg h1]
  · rw [if_neg h]
    unfold countKey
    rw [List.filter_append]
    have hone : List.filter (fun p => decide (dimPlanKey p = k))
        [⟨seq, c.plan_name, c.period, c.amount, c.currency⟩] = [] := by
      have hkey : dimPlanKey ⟨seq, c.plan_name, c.period, c.amount, c.currency⟩ =
          planKey c := rfl
      simp [List.filter_cons, hkey, hck]
    rw [hone, List.append_nil]

/-- Upserting a row whose key is held by at most one existing row leaves
exactly one row of that key. -/
theorem upsertPlanRows_countKey_own {dim : List DimPlanRow} {seq : Nat}
    {c : SubRow} (hq : countKey dim (planKey c) ≤ 1) :
    countKey (upsertPlanRows dim seq c) (planKey c) = 1 := by
  unfold upsertPlanRows
  by_cases h : (dim.any fun p => decide (dimPlanKey p = planKey c)) = true
  · rw [if_pos h]
    rw [countKey_map (fun p => ?_) (planKey c)]
    · obtain ⟨p0, hp0, hk0⟩ := List.any_eq_true.mp h
      have hmem : p0 ∈ dim.filter fun p => decide (dimPlanKey p = planKey c) :=
        List.mem_filter.mpr ⟨hp0, hk0⟩
      have hpos : 0 < countKey dim (planKey c) := by
        unfold countKey
        exact List.length_pos.mpr (List.ne_nil_of_mem hmem)
      omega
    · by_cases h1 : dimPlanKey p = planKey c
      · rw [if_pos h1]
        rfl
      · rw [if_neg h1]
  · rw [if_neg h]
    have h0 : List.filter (fun p => decide (dimPlanKey p = planKey c)) dim = [] := by
      refine List.filter_eq_nil_iff.mpr fun p hp => ?_
      simp only [decide_eq_true_eq]
      intro hk
      exact h (List.any_eq_true.mpr ⟨p, hp, by simpa using hk⟩)
    unfold countKey
    rw [List.filter_append, h0, List.nil_append]
    have hkey : dimPlanKey ⟨seq, c.plan_name, c.period, c.amount, c.currency⟩ =
        planKey c := rfl
    simp [List.filter_cons, hkey]

/-- Folding upserts whose keys all differ from `k` preserves the count at
`k`. -/
theorem planFold_countKey_other :
    ∀ (cs : List SubRow) (st : List DimPlanRow × Nat) (k : String × String),
      (∀ c ∈ cs, planKey c ≠ k) →
      countKey (cs.foldl upsertPlan st).1 k = countKey st.1 k
  | [], _, _, _ => rfl
  | c :: cs, st, k, hk => by
    rw [List.foldl_cons]
    rw [planFold_countKey_other cs (upsertPlan st c) k
      fun c' hc' => hk c' (List.mem_cons_of_mem c hc')]
    exact upsertPlanRows_countKey_other (hk c (List.mem_cons_self c cs))

/-- Folding a key-distinct candidate list over a state holding at most one
row of key `k` leaves exactly one row of `k` whenever some candidate
carries `k`. -/
theorem planFold_countKey_mem :
    ∀ (cs : List SubRow) (st : List DimPlanRow × Nat) (k : String × String),
      ((cs.map planKey).Nodup) → countKey st.1 k ≤ 1 → k ∈ cs.map planKey →
      countKey (cs.foldl upsertPlan st).1 k = 1
  | [], _, _, _, _, hmem => absurd hmem (List.not_mem_nil _)
  | c :: cs, st, k, hnd, hq, hmem => by
    rw [List.map_cons, List.nodup_cons] at hnd
    rw [List.foldl_cons]
    by_cases hck : planKey c = k
    · have hstep : countKey (upsertPlan st c).1 k = 1 := by
        rw [← hck]
        exact upsertPlanRows_countKey_own (hck ▸ hq)
      rw [planFold_countKey_other cs (upsertPlan st c) k
        (fun c' hc' he => hnd.1 (hck ▸ List.mem_map.mpr ⟨c', hc', he⟩))]
      exact hstep
    · have hmem' : k ∈ cs.map planKey := by
        rcases List.mem_cons.mp hmem with h | h
        · exact absurd h.symm hck
        · exact h
      have hq' : countKey (upsertPlan st c).1 k ≤ 1 := by
        show countKey (upsertPlanRows st.1 st.2 c) k ≤ 1
        rw [upsertPlanRows_countKey_other hck]
        exact hq
      exact planFold_countKey_mem cs (upsertPlan st c) k hnd.2 hq' hmem'

/-! ### C4: plan dedup keeps the maximal amount -/

/-- C4: for every `(plan_name, period)` group of staging subscription rows,
the `dim_plan` transform leaves exactly one row of that key (given the
unique-key invariant on the prior contents), and that row's `base_amount`
is the amount of some group member and an upper bound of all the group's
amounts — the group maximum. -/
theorem c4_plan_group_max (pick : List SubRow → Option SubRow)
    (hA : Admissible pick) (stg : List SubRow) (dim : List DimPlanRow)
    (seq : Nat) (k : String × String) (hk : k ∈ planGroups stg)
    (hq : countKey dim k ≤ 1) :
    countKey (dimPlanT pick stg dim seq).1 k = 1 ∧
    ∀ p ∈ (dimPlanT pick stg dim seq).1, dimPlanKey p = k →
      (∃ r ∈ groupRows stg k, p.base_amount = r.amount) ∧
      ∀ r ∈ groupRows stg k, r.amount ≤ p.base_amount := by
  have hnd : ((planCandidates pick stg).map planKey).Nodup := by
    rw [planCandidates_keys hA]
    exact List.nodup_dedup _
  have hkmem : k ∈ (planCandidates pick stg).map planKey := by
    rw [planCandidates_keys hA]
    exact hk
  constructor
  · exact planFold_countKey_mem _ (dim, seq) k hnd hq hkmem
  · obtain ⟨c, hcmem, hck⟩ := List.mem_map.mp hkmem
    intro p hp hpk
    have hest := planFold_establish _ hnd hcmem (dim, seq)
    obtain ⟨hb, _⟩ := hest.2 p hp (by rw [hck]; exact hpk)
    obtain ⟨hcg, hcmax⟩ := planCandidates_mem_spec hA hcmem
    rw [hck] at hcg hcmax
    exact ⟨⟨c, hcg, hb⟩, fun r hr => hb ▸ hcmax r hr⟩

/-- C4 witness: two staging rows of the (Pro, monthly) group with amounts
10 and 20 yield one `dim_plan` row whose `base_amount` is 20. -/
theorem c4_witness :
    (countKey (dimPlanT pickMaxFirst [subTieUSD, subPro20] [] 1).1
        ("Pro", "monthly") = 1 ∧
      ∀ p ∈ (dimPlanT pickMaxFirst [subTieUSD, subPro20] [] 1).1,
        dimPlanKey p = ("Pro", "monthly") →
        (∃ r ∈ groupRows [subTieUSD, subPro20] ("Pro", "monthly"),
          p.base_amount = r.amount) ∧
        ∀ r ∈ groupRows [subTieUSD, subPro20] ("Pro", "monthly"),
          r.amount ≤ p.base_amount) ∧
    (dimPlanT pickMaxFirst [subTieUSD, subPro20] [] 1).1 =
      [⟨1, "Pro", "monthly", 20, "USD"⟩] :=
  ⟨c4_plan_group_max pickMaxFirst pickMaxFirst_admissible [subTieUSD, subPro20]
      [] 1 ("Pro", "monthly") (by decide) (by decide),
    by decide⟩

/-! ### Upsert machinery for `dim_customer` -/

/-- After upserting `r`, some row carries `r`'s key, and every row carrying
`r`'s key equals `r`'s dimension values. -/
theorem upsertCustomer_establish (dim : List DimCustomerRow) (r : CustRow) :
    (∃ x ∈ upsertCustomer dim r, x.customer_id = r.customer_id) ∧
    ∀ x ∈ upsertCustomer dim r, x.customer_id = r.customer_id → x = custVal r := by
  unfold upsertCustomer
  by_cases h : (dim.any fun x => decide (x.customer_id = r.customer_id)) = true
  · rw [if_pos h]
    obtain ⟨x0, hx0, hk0⟩ := List.any_eq_true.mp h
    rw [decide_eq_true_eq] at hk0
    constructor
    · exact ⟨custVal r, List.mem_map.mpr ⟨x0, hx0, by rw [if_pos hk0]⟩, rfl⟩
    · intro x hx hxk
      obtain ⟨x1, hx1, hfe⟩ := List.mem_map.mp hx
      by_cases h1 : x1.customer_id = r.customer_id
      · rw [if_pos h1] at hfe
        exact hfe.symm
      · rw [if_neg h1] at hfe
        rw [← hfe] at hxk
        exact absurd hxk h1
  · rw [if_neg h]
    have hnone : ∀ x ∈ dim, ¬ x.customer_id = r.customer_id := by
      intro x hx hk
      exact h (List.any_eq_true.mpr ⟨x, hx, by simpa using hk⟩)
    constructor
    · exact ⟨custVal r, List.mem_append_right _ (List.mem_singleton.mpr rfl), rfl⟩
    · intro x hx hxk
      rcases List.mem_append.mp hx with hm | hm
      · exact absurd hxk (hnone x hm)
      · exact List.mem_singleton.mp hm

/-- Upserting a row of a different key preserves existence and values at
`k`. -/
theorem upsertCustomer_preserve {dim : List DimCustomerRow} {r : CustRow}
    {k : String} (hrk : r.customer_id ≠ k) {v : DimCustomerRow}
    (hex : ∃ x ∈ dim, x.customer_id = k)
    (hval : ∀ x ∈ dim, x.customer_id = k → x = v) :
    (∃ x ∈ upsertCustomer dim r, x.customer_id = k) ∧
    ∀ x ∈ upsertCustomer dim r, x.customer_id = k → x = v := by
  unfold upsertCustomer
  by_cases h : (dim.any fun x => decide (x.customer_id = r.customer_id)) = true
  · rw [if_pos h]
    constructor
    · obtain ⟨x0, hx0, hk0⟩ := hex
      refine ⟨x0, List.mem_map.mpr ⟨x0, hx0, if_neg fun he => hrk (by rw [← he, hk0])⟩, hk0⟩
    · intro x hx hxk
      obtain ⟨x1, hx1, hfe⟩ := List.mem_map.mp hx
      by_cases h1 : x1.customer_id = r.customer_id
      · rw [if_pos h1] at hfe
        rw [← hfe] at hxk
        exact absurd hxk hrk
      · rw [if_neg h1] at hfe
        rw [← hfe] at hxk ⊢
        exact hval x1 hx1 hxk
  · rw [if_neg h]
    constructor
    · obtain ⟨x0, hx0, hk0⟩ := hex
      exact ⟨x0, List.mem_append_left _ hx0, hk0⟩
    · intro x hx hxk
      rcases List.mem_append.mp hx with hm | hm
      · exact hval x hm hxk
      · rw [List.mem_singleton.mp hm] at hxk
        exact absurd hxk hrk

/-- Folding upserts whose keys all differ from `k` preserves existence and
values at `k`. -/
theorem custFold_preserve {k : String} {v : DimCustomerRow} :
    ∀ (rs : List CustRow) (dim : List DimCustomerRow),
      (∀ r ∈ rs, r.customer_id ≠ k) →
      (∃ x ∈ dim, x.customer_id = k) →
      (∀ x ∈ dim, x.customer_id = k → x = v) →
      (∃ x ∈ rs.foldl upsertCustomer dim, x.customer_id = k) ∧
      ∀ x ∈ rs.foldl upsertCustomer dim, x.customer_id = k → x = v
  | [], _, _, hex, hval => ⟨hex, hval⟩
  | r :: rs, dim, hk, hex, hval => by
    rw [List.foldl_cons]
    have hstep := upsertCustomer_preserve (hk r (List.mem_cons_self r rs)) hex hval
    exact custFold_preserve rs (upsertCustomer dim r)
      (fun r' hr' => hk r' (List.mem_cons_of_mem r hr')) hstep.1 hstep.2

/-- After folding a key-distinct staging batch, each staged row's key is
present and all rows of that key equal its dimension values. -/
theorem custFold_establish :
    ∀ (rs : List CustRow), ((rs.map fun r => r.customer_id).Nodup) →
      ∀ {r : CustRow}, r ∈ rs → ∀ dim : List DimCustomerRow,
      (∃ x ∈ rs.foldl upsertCustomer dim, x.customer_id = r.customer_id) ∧
      ∀ x ∈ rs.foldl upsertCustomer dim, x.customer_id = r.customer_id →
        x = custVal r
  | [], _, _, hr, _ => absurd hr (List.not_mem_nil _)
  | r0 :: rs, hnd, r, hr, dim => by
    rw [List.map_cons, List.nodup_cons] at hnd
    rw [List.foldl_cons]
    rcases List.mem_cons.mp hr with hr0 | hmem
    · subst hr0
      have hstep := upsertCustomer_establish dim r
      have hknot : ∀ r' ∈ rs, r'.customer_id ≠ r.customer_id := by
        intro r' hr' he
        exact hnd.1 (List.mem_map.mpr ⟨r', hr', he⟩)
      exact custFold_preserve rs (upsertCustomer dim r) hknot hstep.1 hstep.2
    · exact custFold_establish rs hnd.2 hmem (upsertCustomer dim r0)

/-- Folding staged rows whose keys are already present with their own values
changes no `dim_customer` row. -/
theorem custFold_fixed :
    ∀ (rs : List CustRow) (dim : List DimCustomerRow),
      (∀ r ∈ rs, (∃ x ∈ dim, x.customer_id = r.customer_id) ∧
        ∀ x ∈ dim, x.customer_id = r.customer_id → x = custVal r) →
      rs.foldl upsertCustomer dim = dim
  | [], _, _ => rfl
  | r :: rs, dim, h => by
    have h0 := h r (List.mem_cons_self r rs)
    have hrows : upsertCustomer dim r = dim := by
      unfold upsertCustomer
      obtain ⟨x0, hx0, hk0⟩ := h0.1
      rw [if_pos (List.any_eq_true.mpr ⟨x0, hx0, by simpa using hk0⟩)]
      refine map_eq_self_of fun x hx => ?_
      by_cases h1 : x.customer_id = r.customer_id
      · rw [if_pos h1, ← h0.2 x hx h1]
      · rw [if_neg h1]
    rw [List.foldl_cons, hrows]
    exact custFold_fixed rs dim fun r' hr' => h r' (List.mem_cons_of_mem r hr')

/-- What a successful `dim_customer` statement tells us: the result is the
pure fold of upserts, the staged keys are pairwise distinct, and none was
touched before. -/
theorem dimCustomerAux_ok :
    ∀ {rs : List CustRow} {touched : List String} {dim dimF : List DimCustomerRow},
      dimCustomerAux rs touched dim = .ok dimF →
      dimF = rs.foldl upsertCustomer dim ∧
      ((rs.map fun r => r.customer_id).Nodup) ∧
      ∀ r ∈ rs, r.customer_id ∉ touched
  | [], _, _, _, h => by
    refine ⟨(Except.ok.inj h).symm, List.nodup_nil, by simp⟩
  | r :: rs, touched, dim, dimF, h => by
    unfold dimCustomerAux at h
    by_cases hmem : r.customer_id ∈ touched
    · rw [if_pos hmem] at h
      exact absurd h (by simp)
    · rw [if_neg hmem] at h
      obtain ⟨hF, hnd, htch⟩ := dimCustomerAux_ok h
      refine ⟨by rw [List.foldl_cons]; exact hF, ?_, ?_⟩
      · rw [List.map_cons, List.nodup_cons]
        refine ⟨fun hc => ?_, hnd⟩
        obtain ⟨r', hr', he⟩ := List.mem_map.mp hc
        exact htch r' hr' (by rw [he]; exact List.mem_cons_self _ _)
      · intro r' hr'
        rcases List.mem_cons.mp hr' with h0 | h0
        · rw [h0]
          exact hmem
        · intro hc
          exact htch r' h0 (List.mem_cons_of_mem _ hc)

/-- A key-distinct, untouched staging batch makes the `dim_customer`
statement succeed with the pure fold of upserts. -/
theorem dimCustomerAux_ok_of :
    ∀ (rs : List CustRow) (touched : List String) (dim : List DimCustomerRow),
      ((rs.map fun r => r.customer_id).Nodup) →
      (∀ r ∈ rs, r.customer_id ∉ touched) →
      dimCustomerAux rs touched dim = .ok (rs.foldl upsertCustomer dim)
  | [], _, _, _, _ => rfl
  | r :: rs, touched, dim, hnd, htch => by
    rw [List.map_cons, List.nodup_cons] at hnd
    unfold dimCustomerAux
    rw [if_neg (htch r (List.mem_cons_self r rs)), List.foldl_cons]
    refine dimCustomerAux_ok_of rs _ _ hnd.2 fun r' hr' => ?_
    intro hc
    rcases List.mem_cons.mp hc with h0 | h0
    · exact hnd.1 (List.mem_map.mpr ⟨r', hr', h0⟩)
    · exact htch r' (List.mem_cons_of_mem r hr') h0

/-- Running the `dim_customer` transform a second time over the same staging
contents succeeds and changes nothing. -/
theorem dimCustomerT_idem {stg : List CustRow} {dim dimF : List DimCustomerRow}
    (h : dimCustomerT stg dim = .ok dimF) :
    dimCustomerT stg dimF = .ok dimF := by
  obtain ⟨hF, hnd, -⟩ := dimCustomerAux_ok h
  have h2 := dimCustomerAux_ok_of stg [] dimF hnd (by simp)
  rw [dimCustomerT, h2, custFold_fixed stg dimF]
  intro r hr
  rw [hF]
  exact custFold_establish stg hnd hr dim

/-! ### C1: idempotence under a consistent tie order -/

/-- Without injected faults, the load-and-transform body either fails in the
`dim_customer` statement or produces the fully transformed state. -/
theorem loadTransformBody_nofault (pick : List SubRow → Option SubRow)
    (inp : Input) (db : DB) :
    loadTransformBody (fun _ => false) pick inp db =
      match dimCustomerT inp.customers db.dim_customer with
      | .error e => .error e
      | .ok dimc =>
        .ok { stg_app_events := inp.app_events
              stg_customers := inp.customers
              stg_subscriptions := inp.subscriptions
              dim_customer := dimc
              dim_plan := (dimPlanT pick inp.subscriptions db.dim_plan db.plan_key_seq).1
              plan_key_seq := (dimPlanT pick inp.subscriptions db.dim_plan db.plan_key_seq).2
              dim_date := db.dim_date
              fact_app_usage := factUsageRows inp.app_events db.dim_date
              fact_subscription_events := factSubRows inp.subscriptions inp.customers
                (dimPlanT pick inp.subscriptions db.dim_plan db.plan_key_seq).1
                db.dim_date } := by
  cases h : dimCustomerT inp.customers db.dim_customer <;>
    simp [loadTransformBody, chk, h, Bind.bind, Except.bind]

/-- A fault-free run is the load-and-transform transaction over the
bootstrapped state; the bootstrap changes no relation contents. -/
theorem run_eq (pick : List SubRow → Option SubRow) (inp : Input) (db : DB) :
    run pick inp db = runTxn (loadTransformBody (fun _ => false) pick inp) db :=
  rfl

/-- C1 (amended): provided both runs resolve the `ROW_NUMBER` ties of the
`dim_plan` ranking the same admissible way — in particular whenever no two
rows of a `(plan_name, period)` group tie on the maximal amount — running
the full pipeline twice on identical input files yields identical staging
and analytics relation contents after the second run: no duplicate
dimension rows are created and each fact relation equals a single rebuild. -/
theorem c1_idempotent_same_tiebreak (pick : List SubRow → Option SubRow)
    (hA : Admissible pick) (inp : Input) (db : DB) :
    relations (run pick inp (run pick inp db)) = relations (run pick inp db) := by
  cases h : dimCustomerT inp.customers db.dim_customer with
  | error e =>
    have h1 : run pick inp db = db := by
      rw [run_eq, runTxn, loadTransformBody_nofault, h]
    rw [h1, h1]
  | ok dimc =>
    have h1 : run pick inp db =
        { stg_app_events := inp.app_events
          stg_customers := inp.customers
          stg_subscriptions := inp.subscriptions
          dim_customer := dimc
          dim_plan := (dimPlanT pick inp.subscriptions db.dim_plan db.plan_key_seq).1
          plan_key_seq := (dimPlanT pick inp.subscriptions db.dim_plan db.plan_key_seq).2
          dim_date := db.dim_date
          fact_app_usage := factUsageRows inp.app_events db.dim_date
          fact_subscription_events := factSubRows inp.subscriptions inp.customers
            (dimPlanT pick inp.subscriptions db.dim_plan db.plan_key_seq).1
            db.dim_date } := by
      rw [run_eq, runTxn, loadTransformBody_nofault, h]
    have hc2 : dimCustomerT inp.customers dimc = .ok dimc := dimCustomerT_idem h
    have h2 : run pick inp (run pick inp db) =
        { stg_app_events := inp.app_events
          stg_customers := inp.customers
          stg_subscriptions := inp.subscriptions
          dim_customer := dimc
          dim_plan := (dimPlanT pick inp.subscriptions
            (dimPlanT pick inp.subscriptions db.dim_plan db.plan_key_seq).1
            (dimPlanT pick inp.subscriptions db.dim_plan db.plan_key_seq).2).1
          plan_key_seq := (dimPlanT pick inp.subscriptions
            (dimPlanT pick inp.subscriptions db.dim_plan db.plan_key_seq).1
            (dimPlanT pick inp.subscriptions db.dim_plan db.plan_key_seq).2).2
          dim_date := db.dim_date
          fact_app_usage := factUsageRows inp.app_events db.dim_date
          fact_subscription_events := factSubRows inp.subscriptions inp.customers
            (dimPlanT pick inp.subscriptions
              (dimPlanT pick inp.subscriptions db.dim_plan db.plan_key_seq).1
              (dimPlanT pick inp.subscriptions db.dim_plan db.plan_key_seq).2).1
            db.dim_date } := by
      rw [h1, run_eq, runTxn, loadTransformBody_nofault]
      simp [hc2]
    rw [h2, h1]
    simp [relations, dimPlanT_fst_idem hA]

/-- C1 witness: one admissible tie order used for both runs on the tie
input leaves the relation contents of the second run equal to the first's. -/
theorem c1_witness :
    relations (run pickMaxFirst inpTie (run pickMaxFirst inpTie dbEmpty)) =
      relations (run pickMaxFirst inpTie dbEmpty) :=
  c1_idempotent_same_tiebreak pickMaxFirst pickMaxFirst_admissible inpTie dbEmpty

end Etl
